import Mathlib

/-!
Verification of the quicktype-vscode extension (`src/extension.ts`) against its
natural-language specification.

The extension is glue code around external collaborators (the VS Code API, the
system clipboard, and the quicktype inference engine).  We embed the control
flow of `pasteAsTypes` and its helpers as pure Lean functions over an `Env`
record that supplies the results of every external call (clipboard content,
prompt answers, the engine's outcome).  A run is modelled as the list of
observable effects it performs, in order.

The specification additionally describes, at design level, a minimal
type-inference-and-code-generation core that the extension delegates to the
external quicktype engine.  That core is not part of this repository's source;
where a claim is about it, the corresponding definitions are modelled from the
spec and are marked as such in their doc comments.
-/

namespace QuicktypeVscode

/-- A quicktype target language, as exposed by the engine's `languages` list
and `languageNamed` lookup: an internal name and a display name. -/
structure Language where
  name : String
  displayName : String
deriving DecidableEq, Repr

/-- Result type of the two interactive prompts in `extension.ts`
(`promptTopLevelName`, `getTargetLanguage`): a cancelled flag and a name. -/
structure CancellableName where
  cancelled : Bool
  name : String
deriving DecidableEq, Repr

/-- JavaScript's `||` operator restricted to strings: the empty string is
falsy, so `s || d` yields `d` when `s` is empty and `s` otherwise. -/
def jsOrString (s d : String) : String :=
  if s = "" then d else s

/-- JavaScript's `String.prototype.repeat`: the string concatenated with
itself `n` times.  Also used by the modelled renderer to build the
indentation prefix of a line at a given nesting level. -/
def repeatStr (s : String) : Nat → String
  | 0 => ""
  | n + 1 => s ++ repeatStr s n

/-- A `TypeSource` as built in `pasteAsTypes` (lines 102-121 of
`extension.ts`): one of the three source variants handed to `quicktype`. -/
inductive TypeSource where
  | json (name : String) (samples : List String)
  | schema (name : String) (schemaText : String)
  | typescript (sources : List (String × String))
deriving DecidableEq, Repr

/-- The serialized render result returned by the engine: its output lines. -/
structure SerializedRenderResult where
  lines : List String
deriving DecidableEq, Repr

/-- The options record passed to the `quicktype` engine call
(lines 132-138 of `extension.ts`). -/
structure QuicktypeOptions where
  lang : String
  sources : List TypeSource
  leadingComments : List String
  rendererOptions : List (String × String)
  indentation : String
deriving DecidableEq, Repr

/-- The three document kinds `pasteAsTypes` accepts; in TypeScript this is
the union type `"json" | "schema" | "typescript"`. -/
inductive Kind where
  | json
  | schema
  | typescript
deriving DecidableEq, Repr

/-- The string a `Kind` denotes in the TypeScript source. -/
def kindString : Kind → String
  | .json => "json"
  | .schema => "schema"
  | .typescript => "typescript"

/-- An editor selection, as a pair of character offsets into the document
(start and stop, with `stop` standing for the source's `end`). -/
structure Selection where
  start : Nat
  stop : Nat
deriving DecidableEq, Repr

/-- VS Code's `selection.isEmpty`: the selection spans no characters. -/
def Selection.isEmpty (s : Selection) : Bool :=
  s.start == s.stop

/-- The environment of one `pasteAsTypes` invocation: everything the function
obtains from external collaborators.  `languageNamed`, `languages` and
`quicktypeRun` model the external quicktype engine; `quickPick`, `inputBox`,
`insertSpaces`, `tabSize`, `documentLanguage` and `selection` model the VS
Code editor API; `clipboard` models the `copy-paste` callback and
`jsonParseOk` models success of the JavaScript builtin `JSON.parse` (the body
of `jsonIsValid` is `try JSON.parse catch return false; return true`). -/
structure Env where
  documentLanguage : String
  languageNamed : String → Option Language
  languages : List Language
  quickPick : List String → Option String
  insertSpaces : Bool
  tabSize : Nat
  clipboard : String
  jsonParseOk : String → Bool
  inputBox : Option String
  quicktypeRun : QuicktypeOptions → Except String SerializedRenderResult
  selection : Selection

/-- Lines 33-40 of `extension.ts`: `jsonIsValid` returns whether
`JSON.parse` succeeds on the given string, catching the parse exception. -/
def jsonIsValid (env : Env) (json : String) : Bool :=
  env.jsonParseOk json

/-- Lines 42-51 of `extension.ts`: prompt for the top-level type name.  The
input box yields `undefined` (here `none`) when dismissed; the returned name
is `topLevelName || "TopLevel"`. -/
def promptTopLevelName (input : Option String) : CancellableName :=
  { cancelled := input.isNone
    name := jsOrString (input.getD "") "TopLevel" }

/-- Lines 53-69 of `extension.ts`: resolve the target language.  If the
document's language id is known to the engine, its display name is used;
otherwise the user picks from the sorted list of display names, and the
result is `chosenName || "types"` with `cancelled` set when the pick was
dismissed. -/
def getTargetLanguage (env : Env) : CancellableName :=
  match env.languageNamed env.documentLanguage with
  | some currentLanguage =>
    { cancelled := false, name := currentLanguage.displayName }
  | none =>
    let languageChoices := (env.languages.map (fun l => l.displayName)).mergeSort (· ≤ ·)
    let chosenName := env.quickPick languageChoices
    { cancelled := chosenName.isNone
      name := jsOrString (chosenName.getD "") "types" }

/-- Lines 72-78 of `extension.ts`: the indentation string is
`" ".repeat(tabSize)` when the editor inserts spaces, and a single tab
character otherwise. -/
def editorIndentation (env : Env) : String :=
  if env.insertSpaces then repeatStr " " env.tabSize else "\t"

/-- Lines 102-121 of `extension.ts`: the source record for the given kind.
The TypeScript object literal indexed by `kind` is total over the three kind
strings, so the `source === undefined` branch of lines 123-126 is
unreachable and the lookup is a plain match here. -/
def mkSource (kind : Kind) (name content : String) : TypeSource :=
  match kind with
  | .json => .json name [content]
  | .schema => .schema name content
  | .typescript => .typescript [(name ++ ".ts", content)]

/-- One observable effect of a `pasteAsTypes` run: reading the clipboard,
showing an error message, sending an analytics event, invoking the quicktype
engine, or performing the final editor edit. -/
inductive Effect where
  | clipboardRead
  | showError (msg : String)
  | sendEvent (action : String) (label : String)
  | invokeQuicktype (opts : QuicktypeOptions)
  | edit (sel : Selection) (text : String)
deriving DecidableEq, Repr

/-- The options record a completed run passes to `quicktype` (lines 91-95,
102-121 and 132-138 of `extension.ts`): the resolved language name, one
source built from the prompted top-level name and the clipboard content, the
fixed leading comment, the just-types renderer options, and the editor's
indentation. -/
def runOpts (env : Env) (kind : Kind) (justTypes : Bool) : QuicktypeOptions :=
  { lang := (getTargetLanguage env).name
    sources := [mkSource kind (promptTopLevelName env.inputBox).name env.clipboard]
    leadingComments := ["Generated by https://quicktype.io"]
    rendererOptions :=
      if justTypes then [("just-types", "true"), ("features", "just-types")] else []
    indentation := editorIndentation env }

/-- Lines 71-155 of `extension.ts`: the full control flow of `pasteAsTypes`,
as the ordered list of effects the run performs.  Every early `return` of the
source ends the list; the `try`/`catch` around the engine call is the match
on `quicktypeRun`'s `Except` result. -/
def pasteAsTypes (env : Env) (kind : Kind) (justTypes : Bool) : List Effect :=
  let language := getTargetLanguage env
  if language.cancelled then []
  else
    let content := env.clipboard
    Effect.clipboardRead ::
    (if kind ≠ Kind.typescript ∧ jsonIsValid env content = false then
      [Effect.showError "Clipboard does not contain valid JSON."]
    else
      let topLevelName := promptTopLevelName env.inputBox
      if topLevelName.cancelled then []
      else
        Effect.sendEvent ("paste " ++ kindString kind) language.name ::
        let opts : QuicktypeOptions := runOpts env kind justTypes
        Effect.invokeQuicktype opts ::
        match env.quicktypeRun opts with
        | .error e => [Effect.showError e]
        | .ok result => [Effect.edit env.selection (String.intercalate "\n" result.lines)])

/-- The texts of the edits a trace performs, in order. -/
def editsOf (tr : List Effect) : List String :=
  tr.filterMap fun e =>
    match e with
    | .edit _ text => some text
    | _ => none

/-- The engine invocations a trace performs, in order. -/
def invocationsOf (tr : List Effect) : List QuicktypeOptions :=
  tr.filterMap fun e =>
    match e with
    | .invokeQuicktype opts => some opts
    | _ => none

/-- Lines 146-154 of `extension.ts`, the edit-builder semantics over a
document modelled as a list of characters with selections as character
offsets: an empty selection inserts the text at the selection start, a
non-empty one replaces the range from start to end. -/
def applyEdit (doc : List Char) (sel : Selection) (text : List Char) : List Char :=
  if sel.isEmpty then doc.take sel.start ++ text ++ doc.drop sel.start
  else doc.take sel.start ++ text ++ doc.drop sel.stop

/-- Sample environment for witnesses: the language quick-pick is dismissed
and the document language is unknown to the engine, so target-language
resolution is cancelled. -/
def envCancelled : Env :=
  { documentLanguage := "plaintext"
    languageNamed := fun _ => none
    languages := []
    quickPick := fun _ => none
    insertSpaces := true
    tabSize := 2
    clipboard := "x"
    jsonParseOk := fun _ => false
    inputBox := none
    quicktypeRun := fun _ => Except.error "engine failure"
    selection := ⟨0, 0⟩ }

/-- Sample environment for witnesses: the document language is Go (known to
the engine), the clipboard never parses as JSON, and the engine call fails. -/
def envInvalidJson : Env :=
  { documentLanguage := "go"
    languageNamed := fun s => if s = "go" then some ⟨"go", "Go"⟩ else none
    languages := [⟨"go", "Go"⟩]
    quickPick := fun _ => none
    insertSpaces := true
    tabSize := 4
    clipboard := "not json"
    jsonParseOk := fun _ => false
    inputBox := some "Name"
    quicktypeRun := fun _ => Except.error "engine failure"
    selection := ⟨0, 0⟩ }

/-- Sample environment for witnesses: the document language is Go, the
clipboard always parses as JSON, the top-level-name prompt is answered with
the empty string, and the engine call succeeds with one output line. -/
def envGo : Env :=
  { documentLanguage := "go"
    languageNamed := fun s => if s = "go" then some ⟨"go", "Go"⟩ else none
    languages := [⟨"go", "Go"⟩]
    quickPick := fun _ => none
    insertSpaces := true
    tabSize := 2
    clipboard := "\x7b\x7d"
    jsonParseOk := fun _ => true
    inputBox := some ""
    quicktypeRun := fun _ => Except.ok ⟨["type TopLevel struct \x7b\x7d"]⟩
    selection := ⟨0, 0⟩ }

/-- Modelled from the spec: the primitive kinds of the design-level Type
Graph (§3), together with the looser catch-all kind `pany` that §4.2
forbids the unifier from silently widening to. -/
inductive PrimKind where
  | pnull
  | pbool
  | pinteger
  | pdouble
  | pstring
  | pany
deriving DecidableEq, Repr

/-- Modelled from the spec: a Shape / Type Graph node (§3) — primitive,
object with ordered fields, array, union, or optional (the marker §4.2
attaches to a field present in one sample but absent in another).  The
external engine's actual type graph is not part of this repository. -/
inductive Shape where
  | prim (k : PrimKind)
  | obj (fields : List (String × Shape))
  | arr (elem : Shape)
  | union (shapes : List Shape)
  | opt (s : Shape)

mutual

/-- Boolean equality of shapes, together with its liftings to field lists
and member lists. -/
def Shape.beq : Shape → Shape → Bool
  | .prim k1, .prim k2 => k1 == k2
  | .obj f1, .obj f2 => Shape.beqFields f1 f2
  | .arr e1, .arr e2 => Shape.beq e1 e2
  | .union s1, .union s2 => Shape.beqList s1 s2
  | .opt s1, .opt s2 => Shape.beq s1 s2
  | _, _ => false

/-- Boolean equality of field lists. -/
def Shape.beqFields : List (String × Shape) → List (String × Shape) → Bool
  | [], [] => true
  | (n1, s1) :: r1, (n2, s2) :: r2 => n1 == n2 && Shape.beq s1 s2 && Shape.beqFields r1 r2
  | _, _ => false

/-- Boolean equality of shape lists. -/
def Shape.beqList : List Shape → List Shape → Bool
  | [], [] => true
  | s1 :: r1, s2 :: r2 => Shape.beq s1 s2 && Shape.beqList r1 r2
  | _, _ => false

end

instance : BEq Shape :=
  ⟨Shape.beq⟩

/-- The member list of a shape viewed as a union: a union's members, and
any other shape as the singleton list of itself. -/
def members : Shape → List Shape
  | .union shapes => shapes
  | s => [s]

/-- Modelled from the spec (§4.2): build a union from a list of member
shapes, keeping every distinct member exactly once and collapsing a
singleton to its only member. -/
def mkUnion (shapes : List Shape) : Shape :=
  match shapes.eraseDups with
  | [s] => s
  | ss => .union ss

/-- The shape of the field with the given name, if present. -/
def lookupField (n : String) (fields : List (String × Shape)) : Option Shape :=
  (fields.find? fun p => p.1 == n).map fun p => p.2

/-- The fields other than the one with the given name. -/
def removeField (n : String) (fields : List (String × Shape)) : List (String × Shape) :=
  fields.filter fun p => p.1 != n

mutual

/-- Modelled from the spec (§4.2): structural unification of two shapes.
Matching primitives merge; the integer/double pair merges to double (a
single fractional observation downgrades the field to general numeric); any
other primitive clash becomes a union preserving both kinds; objects merge
field-by-field through `unifyFields`; arrays unify their element shapes;
any other clash becomes a union of the two sides' members. -/
def unify : Shape → Shape → Shape
  | .prim k1, .prim k2 =>
    if k1 = k2 then .prim k1
    else if (k1 = .pinteger ∧ k2 = .pdouble) ∨ (k1 = .pdouble ∧ k2 = .pinteger) then
      .prim .pdouble
    else .union [.prim k1, .prim k2]
  | .obj f1, .obj f2 => .obj (unifyFields f1 f2)
  | .arr e1, .arr e2 => .arr (unify e1 e2)
  | s1, s2 => mkUnion (members s1 ++ members s2)

/-- Modelled from the spec (§4.2): merge two field lists field-by-field; a
field present on only one side becomes optional. -/
def unifyFields : List (String × Shape) → List (String × Shape) → List (String × Shape)
  | [], f2 => f2.map fun p => (p.1, Shape.opt p.2)
  | (n, s) :: rest, f2 =>
    match lookupField n f2 with
    | some s2 => (n, unify s s2) :: unifyFields rest (removeField n f2)
    | none => (n, Shape.opt s) :: unifyFields rest f2

end

/-- Unify a list of shapes left to right; with no shape at all, default to
the empty object as §4.2 prescribes. -/
def unifyAll : List Shape → Shape
  | [] => .obj []
  | s :: rest => rest.foldl unify s

/-- Modelled from the spec: a JSON value as the Sample Ingest component
receives it (§4.1); `jdouble` stands for a number with a fractional part,
`jint` for an integral one. -/
inductive JValue where
  | jnull
  | jbool (b : Bool)
  | jint (n : Int)
  | jdouble
  | jstr (s : String)
  | jarr (elems : List JValue)
  | jobj (fields : List (String × JValue))

mutual

/-- Modelled from the spec (§4.1): infer the Shape of one JSON sample. -/
def infer : JValue → Shape
  | .jnull => .prim .pnull
  | .jbool _ => .prim .pbool
  | .jint _ => .prim .pinteger
  | .jdouble => .prim .pdouble
  | .jstr _ => .prim .pstring
  | .jarr elems => .arr (unifyAll (inferList elems))
  | .jobj fields => .obj (inferFields fields)

/-- Shape inference over a list of samples. -/
def inferList : List JValue → List Shape
  | [] => []
  | v :: rest => infer v :: inferList rest

/-- Shape inference over an object's fields. -/
def inferFields : List (String × JValue) → List (String × Shape)
  | [] => []
  | (n, v) :: rest => (n, infer v) :: inferFields rest

end

/-- The sample `\x7b"a": 1\x7d` of §8's union test. -/
def sampleIntA : JValue :=
  .jobj [("a", .jint 1)]

/-- The sample `\x7b"a": "x"\x7d` of §8's union test. -/
def sampleStrA : JValue :=
  .jobj [("a", .jstr "x")]

mutual

/-- The nesting depth of a shape, used as ample recursion fuel for the
modelled renderer. -/
def Shape.depth : Shape → Nat
  | .prim _ => 1
  | .obj fields => Shape.fieldsDepth fields + 1
  | .arr elem => elem.depth + 1
  | .union shapes => Shape.listDepth shapes + 1
  | .opt s => s.depth + 1

/-- The greatest depth among a field list's shapes. -/
def Shape.fieldsDepth : List (String × Shape) → Nat
  | [] => 0
  | (_, s) :: rest => max s.depth (Shape.fieldsDepth rest)

/-- The greatest depth among a list of shapes. -/
def Shape.listDepth : List Shape → Nat
  | [] => 0
  | s :: rest => max s.depth (Shape.listDepth rest)

end

/-- The display text of a primitive kind in the modelled renderer. -/
def primName : PrimKind → String
  | .pnull => "null"
  | .pbool => "bool"
  | .pinteger => "integer"
  | .pdouble => "double"
  | .pstring => "string"
  | .pany => "any"

/-- Modelled from the spec (§4.3): the renderer's layout of a shape as a
list of (nesting level, line content) pairs, before indentation is
applied.  The fuel argument bounds the recursion depth. -/
def layout : Nat → Nat → Shape → List (Nat × String)
  | 0, _, _ => []
  | _ + 1, lvl, .prim k => [(lvl, primName k)]
  | fuel + 1, lvl, .obj fields =>
    (lvl, "\x7b") ::
      fields.foldr
        (fun p acc => (lvl + 1, p.1 ++ ":") :: (layout fuel (lvl + 2) p.2 ++ acc))
        [(lvl, "\x7d")]
  | fuel + 1, lvl, .arr elem => (lvl, "array:") :: layout fuel (lvl + 1) elem
  | fuel + 1, lvl, .union shapes =>
    (lvl, "union:") :: shapes.foldr (fun s acc => layout fuel (lvl + 1) s ++ acc) []
  | fuel + 1, lvl, .opt s => (lvl, "optional:") :: layout fuel (lvl + 1) s

/-- Modelled from the spec (§4.3): the renderer's emitted lines, each line
prefixed by the indentation string repeated once per nesting level. -/
def renderLines (indent : String) : Nat → Nat → Shape → List String
  | 0, _, _ => []
  | _ + 1, lvl, .prim k => [repeatStr indent lvl ++ primName k]
  | fuel + 1, lvl, .obj fields =>
    (repeatStr indent lvl ++ "\x7b") ::
      fields.foldr
        (fun p acc =>
          (repeatStr indent (lvl + 1) ++ (p.1 ++ ":")) ::
            (renderLines indent fuel (lvl + 2) p.2 ++ acc))
        [repeatStr indent lvl ++ "\x7d"]
  | fuel + 1, lvl, .arr elem =>
    (repeatStr indent lvl ++ "array:") :: renderLines indent fuel (lvl + 1) elem
  | fuel + 1, lvl, .union shapes =>
    (repeatStr indent lvl ++ "union:") ::
      shapes.foldr (fun s acc => renderLines indent fuel (lvl + 1) s ++ acc) []
  | fuel + 1, lvl, .opt s =>
    (repeatStr indent lvl ++ "optional:") :: renderLines indent fuel (lvl + 1) s

/-- Modelled from the spec (§3, §4.3): the Render Options bundle. -/
structure RenderOptions where
  lang : String
  indentation : String
  justTypes : Bool
  leadingComments : List String
deriving DecidableEq, Repr

/-- Modelled from the spec (§4.3): render a Type Graph with the given
options — the leading comments as comment lines followed by the shape's
lines at nesting level zero. -/
def render (g : Shape) (o : RenderOptions) : List String :=
  (o.leadingComments.map fun c => "// " ++ c) ++ renderLines o.indentation g.depth 0 g

/-- C5: an unselected target language fails the run before any inference
work: when target-language resolution is cancelled, `pasteAsTypes` performs
no effect at all — in particular it neither reads the clipboard, nor builds
a source, nor invokes quicktype. -/
theorem claim_C5 (env : Env) (kind : Kind) (justTypes : Bool)
    (h : (getTargetLanguage env).cancelled = true) :
    pasteAsTypes env kind justTypes = [] := by
  simp [pasteAsTypes, h]

/-- Witness for C5 at a concrete environment whose language quick-pick is
dismissed. -/
theorem claim_C5_witness :
    pasteAsTypes envCancelled Kind.json true = [] :=
  claim_C5 envCancelled Kind.json true (by simp [getTargetLanguage, envCancelled])

/-- C1: for kind `json` or `schema`, an invalid clipboard shows the error
message and ends the run without invoking the engine; the run is a total
function of its environment, so it cannot crash. -/
theorem claim_C1 (env : Env) (kind : Kind) (justTypes : Bool)
    (hkind : kind = Kind.json ∨ kind = Kind.schema)
    (hlang : (getTargetLanguage env).cancelled = false)
    (hjson : jsonIsValid env env.clipboard = false) :
    pasteAsTypes env kind justTypes =
      [Effect.clipboardRead, Effect.showError "Clipboard does not contain valid JSON."] ∧
    invocationsOf (pasteAsTypes env kind justTypes) = [] := by
  have hne : kind ≠ Kind.typescript := by
    rcases hkind with h | h <;> simp [h]
  have htrace : pasteAsTypes env kind justTypes =
      [Effect.clipboardRead, Effect.showError "Clipboard does not contain valid JSON."] := by
    simp [pasteAsTypes, hlang, hne, hjson]
  exact ⟨htrace, by simp [htrace, invocationsOf]⟩

/-- Witness for C1 at a concrete environment whose clipboard is not valid
JSON. -/
theorem claim_C1_witness :
    pasteAsTypes envInvalidJson Kind.json true =
      [Effect.clipboardRead, Effect.showError "Clipboard does not contain valid JSON."] ∧
    invocationsOf (pasteAsTypes envInvalidJson Kind.json true) = [] :=
  claim_C1 envInvalidJson Kind.json true (Or.inl rfl) rfl rfl

/-- C2: a run is atomic with respect to the document: either it performs no
edit at all, or the engine call succeeded and the single edit carries the
engine's full output joined by newlines. -/
theorem claim_C2 (env : Env) (kind : Kind) (justTypes : Bool) :
    editsOf (pasteAsTypes env kind justTypes) = [] ∨
    ∃ result, env.quicktypeRun (runOpts env kind justTypes) = Except.ok result ∧
      editsOf (pasteAsTypes env kind justTypes) =
        [String.intercalate "\n" result.lines] := by
  by_cases hc : (getTargetLanguage env).cancelled = true
  · left
    simp [pasteAsTypes, hc, editsOf]
  · have hc' : (getTargetLanguage env).cancelled = false := by
      simpa using hc
    by_cases hj : kind ≠ Kind.typescript ∧ jsonIsValid env env.clipboard = false
    · left
      simp [pasteAsTypes, hc', hj, editsOf]
    · by_cases hp : (promptTopLevelName env.inputBox).cancelled = true
      · left
        simp [pasteAsTypes, hc', hj, hp, editsOf]
      · have hp' : (promptTopLevelName env.inputBox).cancelled = false := by
          simpa using hp
        cases hrun : env.quicktypeRun (runOpts env kind justTypes) with
        | error e =>
          left
          simp [pasteAsTypes, hc', hj, hp', hrun, editsOf]
        | ok result =>
          right
          exact ⟨result, rfl, by simp [pasteAsTypes, hc', hj, hp', hrun, editsOf]⟩

/-- C3: assuming the quick-pick only ever returns one of the offered items
and no supported language has an empty display name, `getTargetLanguage`
yields either the display name of the language `languageNamed` recognizes
for the document, or a display name from the supported-language list, or the
cancelled flag — never a silently substituted fallback. -/
theorem claim_C3 (env : Env)
    (hpick : ∀ xs s, env.quickPick xs = some s → s ∈ xs)
    (hdisp : ∀ l ∈ env.languages, l.displayName ≠ "") :
    (getTargetLanguage env).cancelled = true ∨
    (∃ l, env.languageNamed env.documentLanguage = some l ∧
      (getTargetLanguage env).name = l.displayName) ∨
    (getTargetLanguage env).name ∈ env.languages.map (fun l => l.displayName) := by
  cases h : env.languageNamed env.documentLanguage with
  | some l =>
    right; left
    exact ⟨l, rfl, by simp [getTargetLanguage, h]⟩
  | none =>
    cases hq : env.quickPick ((env.languages.map (fun l => l.displayName)).mergeSort (· ≤ ·)) with
    | none =>
      left
      simp only [getTargetLanguage, h]
      rw [hq]
      rfl
    | some s =>
      right; right
      have hs : s ∈ (env.languages.map (fun l => l.displayName)).mergeSort (· ≤ ·) :=
        hpick _ _ hq
      have hs' : s ∈ env.languages.map (fun l => l.displayName) :=
        List.mem_mergeSort.mp hs
      have hne : s ≠ "" := by
        rcases List.mem_map.mp hs' with ⟨l, hl, hsl⟩
        intro hcontra
        exact hdisp l hl (by rw [hsl, hcontra])
      have hname : (getTargetLanguage env).name = s := by
        simp only [getTargetLanguage, h]
        rw [hq]
        simp [jsOrString, hne]
      rw [hname]
      exact hs'

/-- Witness for C3 at a concrete environment whose document language is
recognized by the engine. -/
theorem claim_C3_witness :
    (getTargetLanguage envInvalidJson).cancelled = true ∨
    (∃ l, envInvalidJson.languageNamed envInvalidJson.documentLanguage = some l ∧
      (getTargetLanguage envInvalidJson).name = l.displayName) ∨
    (getTargetLanguage envInvalidJson).name ∈
      envInvalidJson.languages.map (fun l => l.displayName) :=
  claim_C3 envInvalidJson (fun _ _ h => Option.noConfusion h) (by decide)

/-- C4: rendering is deterministic and idempotent — two runs of the
modelled renderer on the same Type Graph and Render Options produce
identical output lines.  The renderer is a pure function of exactly these
two inputs, so the runs cannot differ. -/
theorem claim_C4 (g : Shape) (o : RenderOptions) (r1 r2 : List String)
    (h1 : r1 = render g o) (h2 : r2 = render g o) :
    r1 = r2 :=
  h1.trans h2.symm

/-- Witness for C4 at a concrete graph and options. -/
theorem claim_C4_witness :
    render (Shape.prim PrimKind.pstring) ⟨"Go", "  ", true, ["made by tool"]⟩ =
      render (Shape.prim PrimKind.pstring) ⟨"Go", "  ", true, ["made by tool"]⟩ :=
  claim_C4 (Shape.prim PrimKind.pstring) ⟨"Go", "  ", true, ["made by tool"]⟩ _ _ rfl rfl

/-- C9: the final edit touches only the selection.  In canonical form the
new document is the prefix before the selection start, then the inserted
text, then the suffix after the selection end (insertion at start when the
selection is empty); the prefix before the start and the suffix after the
end are left unchanged. -/
theorem claim_C9 (doc : List Char) (sel : Selection) (text : List Char)
    (hse : sel.start ≤ sel.stop) (hsl : sel.stop ≤ doc.length) :
    applyEdit doc sel text = doc.take sel.start ++ text ++ doc.drop sel.stop ∧
    (applyEdit doc sel text).take sel.start = doc.take sel.start ∧
    (applyEdit doc sel text).drop (sel.start + text.length) = doc.drop sel.stop := by
  have hcanon : applyEdit doc sel text = doc.take sel.start ++ text ++ doc.drop sel.stop := by
    unfold applyEdit
    by_cases he : sel.isEmpty
    · have heq : sel.start = sel.stop := by
        simpa [Selection.isEmpty] using he
      simp [he, heq]
    · simp [he]
  have hlen : (doc.take sel.start).length = sel.start := by
    rw [List.length_take]
    omega
  refine ⟨hcanon, ?_, ?_⟩
  · rw [hcanon, List.append_assoc, List.take_append_eq_append_take, hlen]
    simp [List.take_take]
  · rw [hcanon, List.append_assoc, List.drop_append_eq_append_drop, hlen]
    have h1 : (doc.take sel.start).drop (sel.start + text.length) = [] := by
      apply List.drop_eq_nil_of_le
      omega
    have h2 : sel.start + text.length - sel.start = text.length := by
      omega
    rw [h2, List.drop_append_eq_append_drop]
    simp [h1]

/-- Witness for C9 at a concrete document, selection and text. -/
theorem claim_C9_witness :
    applyEdit "abcdef".toList ⟨1, 3⟩ "XY".toList =
      "abcdef".toList.take 1 ++ "XY".toList ++ "abcdef".toList.drop 3 ∧
    (applyEdit "abcdef".toList ⟨1, 3⟩ "XY".toList).take 1 = "abcdef".toList.take 1 ∧
    (applyEdit "abcdef".toList ⟨1, 3⟩ "XY".toList).drop (1 + "XY".toList.length) =
      "abcdef".toList.drop 3 :=
  claim_C9 "abcdef".toList ⟨1, 3⟩ "XY".toList (by decide) (by decide)

/-- C8: an empty answer at the top-level-name prompt yields the default
name "TopLevel" with the cancelled flag clear; the flag is set exactly when
the input box was dismissed; and a run reaching the engine with an empty
answer builds its source under the name "TopLevel". -/
theorem claim_C8 :
    promptTopLevelName (some "") = { cancelled := false, name := "TopLevel" } ∧
    (∀ input : Option String, (promptTopLevelName input).cancelled = true ↔ input = none) ∧
    (∀ (env : Env) (kind : Kind) (justTypes : Bool),
      env.inputBox = some "" →
      (getTargetLanguage env).cancelled = false →
      (kind = Kind.typescript ∨ jsonIsValid env env.clipboard = true) →
      Effect.invokeQuicktype (runOpts env kind justTypes) ∈ pasteAsTypes env kind justTypes ∧
      (runOpts env kind justTypes).sources = [mkSource kind "TopLevel" env.clipboard]) := by
  refine ⟨rfl, ?_, ?_⟩
  · intro input
    cases input <;> simp [promptTopLevelName, jsOrString]
  · intro env kind justTypes hin hlang hok
    have hprompt : promptTopLevelName env.inputBox =
        { cancelled := false, name := "TopLevel" } := by
      rw [hin]
      rfl
    have hcond : ¬(kind ≠ Kind.typescript ∧ jsonIsValid env env.clipboard = false) := by
      rcases hok with h | h <;> simp [h]
    constructor
    · cases hrun : env.quicktypeRun (runOpts env kind justTypes) <;>
        simp [pasteAsTypes, hlang, hcond, hprompt, hrun]
    · simp [runOpts, hprompt]

/-- Witness for C8's run-proceeds clause at a concrete environment whose
prompt is answered with the empty string. -/
theorem claim_C8_witness :
    Effect.invokeQuicktype (runOpts envGo Kind.json true) ∈ pasteAsTypes envGo Kind.json true ∧
    (runOpts envGo Kind.json true).sources = [mkSource Kind.json "TopLevel" envGo.clipboard] :=
  claim_C8.2.2 envGo Kind.json true rfl rfl (Or.inr rfl)

/-- C10: for kind `typescript` the clipboard is never validated locally —
the run's trace does not depend on the `JSON.parse` oracle at all, the
clipboard text is forwarded to the engine verbatim inside a typescript
source, and an engine failure is handled by the catch: the error message is
shown and no edit is performed. -/
theorem claim_C10 (env : Env) (justTypes : Bool) (f : String → Bool) :
    pasteAsTypes { env with jsonParseOk := f } Kind.typescript justTypes =
      pasteAsTypes env Kind.typescript justTypes ∧
    ((getTargetLanguage env).cancelled = false →
      (promptTopLevelName env.inputBox).cancelled = false →
      Effect.invokeQuicktype (runOpts env Kind.typescript justTypes) ∈
        pasteAsTypes env Kind.typescript justTypes ∧
      (runOpts env Kind.typescript justTypes).sources =
        [TypeSource.typescript
          [((promptTopLevelName env.inputBox).name ++ ".ts", env.clipboard)]] ∧
      ∀ e, env.quicktypeRun (runOpts env Kind.typescript justTypes) = Except.error e →
        Effect.showError e ∈ pasteAsTypes env Kind.typescript justTypes ∧
        editsOf (pasteAsTypes env Kind.typescript justTypes) = []) := by
  constructor
  · simp [pasteAsTypes, runOpts, getTargetLanguage, promptTopLevelName, editorIndentation,
      mkSource, jsonIsValid]
  · intro hlang hprompt
    refine ⟨?_, by simp [runOpts, mkSource], ?_⟩
    · cases hrun : env.quicktypeRun (runOpts env Kind.typescript justTypes) <;>
        simp [pasteAsTypes, hlang, hprompt, hrun]
    · intro e hrun
      constructor
      · simp [pasteAsTypes, hlang, hprompt, hrun]
      · simp [pasteAsTypes, hlang, hprompt, hrun, editsOf]

/-- Witness for C10's forwarding clause at a concrete environment whose
clipboard never parses as JSON and whose engine call fails. -/
theorem claim_C10_witness :
    Effect.invokeQuicktype (runOpts envInvalidJson Kind.typescript false) ∈
      pasteAsTypes envInvalidJson Kind.typescript false ∧
    (runOpts envInvalidJson Kind.typescript false).sources =
      [TypeSource.typescript
        [((promptTopLevelName envInvalidJson.inputBox).name ++ ".ts",
          envInvalidJson.clipboard)]] ∧
    (∀ e, envInvalidJson.quicktypeRun (runOpts envInvalidJson Kind.typescript false) =
        Except.error e →
      Effect.showError e ∈ pasteAsTypes envInvalidJson Kind.typescript false ∧
      editsOf (pasteAsTypes envInvalidJson Kind.typescript false) = []) :=
  (claim_C10 envInvalidJson false (fun _ => true)).2 rfl rfl

/-- Every engine invocation in a run's trace carries exactly the options
record `runOpts` builds for that run. -/
theorem invoke_eq_runOpts (env : Env) (kind : Kind) (justTypes : Bool)
    (opts : QuicktypeOptions)
    (h : Effect.invokeQuicktype opts ∈ pasteAsTypes env kind justTypes) :
    opts = runOpts env kind justTypes := by
  by_cases hc : (getTargetLanguage env).cancelled = true
  · simp [pasteAsTypes, hc] at h
  · have hc' : (getTargetLanguage env).cancelled = false := by
      simpa using hc
    by_cases hj : kind ≠ Kind.typescript ∧ jsonIsValid env env.clipboard = false
    · simp [pasteAsTypes, hc', hj] at h
    · by_cases hp : (promptTopLevelName env.inputBox).cancelled = true
      · simp [pasteAsTypes, hc', hj, hp] at h
      · have hp' : (promptTopLevelName env.inputBox).cancelled = false := by
          simpa using hp
        cases hrun : env.quicktypeRun (runOpts env kind justTypes) with
        | error e =>
          simp [pasteAsTypes, hc', hj, hp', hrun] at h
          exact h
        | ok result =>
          simp [pasteAsTypes, hc', hj, hp', hrun] at h
          exact h

/-- C6: the indentation option is honored exactly.  Every engine invocation
passes as indentation the tab-size-many-spaces string when the editor
inserts spaces and a single tab otherwise; and the modelled renderer emits
every line as its layout content prefixed by the indentation string
repeated once per nesting level. -/
theorem claim_C6 :
    (∀ (env : Env) (kind : Kind) (justTypes : Bool) (opts : QuicktypeOptions),
      Effect.invokeQuicktype opts ∈ pasteAsTypes env kind justTypes →
      opts.indentation =
        (if env.insertSpaces then repeatStr " " env.tabSize else "\t")) ∧
    (∀ (indent : String) (fuel lvl : Nat) (s : Shape),
      renderLines indent fuel lvl s =
        (layout fuel lvl s).map fun p => repeatStr indent p.1 ++ p.2) := by
  constructor
  · intro env kind justTypes opts h
    rw [invoke_eq_runOpts env kind justTypes opts h]
    simp [runOpts, editorIndentation]
  · intro indent fuel
    induction fuel with
    | zero =>
      intro lvl s
      simp [renderLines, layout]
    | succ n ih =>
      intro lvl s
      cases s with
      | prim k =>
        simp [renderLines, layout]
      | obj fields =>
        simp only [renderLines, layout, List.map_cons]
        refine congrArg _ ?_
        induction fields with
        | nil =>
          simp
        | cons p rest ihf =>
          simp only [List.foldr_cons, List.map_cons, List.map_append]
          rw [ihf, ih]
      | arr elem =>
        simp [renderLines, layout, ih]
      | union shapes =>
        simp only [renderLines, layout, List.map_cons]
        refine congrArg _ ?_
        induction shapes with
        | nil =>
          simp
        | cons s' rest ihs =>
          simp only [List.foldr_cons, List.map_append]
          rw [ihs, ih]
      | opt s' =>
        simp [renderLines, layout, ih]

/-- Witness for C6's invocation clause at a concrete environment using
2-space indentation. -/
theorem claim_C6_witness :
    (runOpts envGo Kind.json true).indentation =
      (if envGo.insertSpaces then repeatStr " " envGo.tabSize else "\t") :=
  claim_C6.1 envGo Kind.json true (runOpts envGo Kind.json true) (by decide)

/-- C7: unifying the two samples of §8's union test under the same logical
name yields a field `a` typed as the union of integer and string; both
observed primitive kinds are preserved as members and the looser kind `any`
is not among them. -/
theorem claim_C7 :
    unify (infer sampleIntA) (infer sampleStrA) =
      Shape.obj
        [("a", Shape.union [Shape.prim PrimKind.pinteger, Shape.prim PrimKind.pstring])] ∧
    Shape.prim PrimKind.pinteger ∈
      members (Shape.union [Shape.prim PrimKind.pinteger, Shape.prim PrimKind.pstring]) ∧
    Shape.prim PrimKind.pstring ∈
      members (Shape.union [Shape.prim PrimKind.pinteger, Shape.prim PrimKind.pstring]) ∧
    Shape.prim PrimKind.pany ∉
      members (Shape.union [Shape.prim PrimKind.pinteger, Shape.prim PrimKind.pstring]) := by
  refine ⟨?_, ?_, ?_, ?_⟩
  · simp [sampleIntA, sampleStrA, infer, inferFields, unify, unifyFields, lookupField,
      removeField, members]
  · simp [members]
  · simp [members]
  · simp [members]

end QuicktypeVscode
